import Mathlib

/-!
Verification of the stack/resolution core of terragrunt-atlantis-config.

The Go sources are shallowly embedded: pure string and list manipulation is
translated to Lean functions on `String`/`List Char`; filesystem access and the
external HCL/terraform parsers are abstracted as explicit function parameters
(`fs`, `fileExists`); the unbounded Go recursion of the local-source resolver
is embedded with an explicit fuel parameter (`Nat`), where a `none` result
means the Go code has not returned within that recursion depth.
-/

namespace TAC

/-! ### Character-list models of the Go `strings` helpers -/

/-- Go `strings.Contains` on character lists: `needle` occurs contiguously in `hay`. -/
def containsSub (hay needle : List Char) : Bool :=
  match hay with
  | [] => needle.isEmpty
  | _ :: t => needle.isPrefixOf hay || containsSub t needle

/-- Go `strings.Contains` on strings. -/
def strContains (s sub : String) : Bool :=
  containsSub s.toList sub.toList

/-- Go `strings.HasPrefix` on strings. -/
def strStartsWith (s pre : String) : Bool :=
  pre.toList.isPrefixOf s.toList

/-- Go `strings.HasSuffix` on strings. -/
def strEndsWith (s suf : String) : Bool :=
  suf.toList.isSuffixOf s.toList

/-- Go `strings.TrimSuffix(s, "/")`: drop one trailing slash if present. -/
def trimTrailingSlash (s : String) : String :=
  if strEndsWith s ("/") then String.mk s.toList.dropLast else s

/-- Go `strings.TrimPrefix(s, "/")`: drop one leading slash if present. -/
def trimLeadingSlash (s : String) : String :=
  match s.toList with
  | '/' :: rest => String.mk rest
  | _ => s

/-- Go `strings.Split(s, "**")` on character lists: split around every
non-overlapping occurrence of `**`, scanning left to right. -/
def splitStarStar : List Char → List (List Char)
  | [] => [[]]
  | '*' :: '*' :: rest => [] :: splitStarStar rest
  | c :: rest =>
    match splitStarStar rest with
    | [] => [[c]]
    | h :: t => (c :: h) :: t

/-! ### Go `path/filepath.Match`

Model of Go `filepath.Match` for patterns without character classes or
escapes (the only pattern forms occurring in this code base): `*` matches any
run of non-separator characters, `?` one non-separator character, any other
character matches itself. The fuel argument makes the recursion structural;
`goMatch` passes `pattern.length + name.length + 1`, which is sufficient
because every recursive step shortens the pattern or the name. -/

def goMatchFuel : Nat → List Char → List Char → Bool
  | 0, _, _ => false
  | Nat.succ _, [], name => name.isEmpty
  | Nat.succ f, '*' :: ps, name =>
    goMatchFuel f ps name ||
      (match name with
       | [] => false
       | c :: cs => decide (c ≠ '/') && goMatchFuel f ('*' :: ps) cs)
  | Nat.succ f, '?' :: ps, name =>
    (match name with
     | [] => false
     | c :: cs => decide (c ≠ '/') && goMatchFuel f ps cs)
  | Nat.succ f, p :: ps, name =>
    (match name with
     | [] => false
     | c :: cs => (p == c) && goMatchFuel f ps cs)

/-- Go `filepath.Match pattern name` (no character classes / escapes). -/
def goMatch (pattern name : String) : Bool :=
  goMatchFuel (pattern.length + name.length + 1) pattern.toList name.toList

/-! ### `matchGlobPattern` (stack definitions source, lines 330–358) -/

/-- `matchGlobPattern(path, pattern)`: when the pattern contains `**` and
`strings.Split(pattern, "**")` yields exactly two parts, the path must start
with the slash-trimmed first part (if non-empty) and end with the
slash-trimmed second part (if non-empty); any other pattern goes through
`filepath.Match`. -/
def matchGlobPattern (path pattern : String) : Bool :=
  if strContains pattern ("**") then
    match splitStarStar pattern.toList with
    | [p1, p2] =>
      let pre := trimTrailingSlash (String.mk p1)
      let suf := trimLeadingSlash (String.mk p2)
      if pre != "" && !(strStartsWith path pre) then false
      else if suf != "" && !(strEndsWith path suf) then false
      else true
    | _ => goMatch pattern path
  else goMatch pattern path

/-- Split a character list at the first occurrence of `**`, if any. -/
def splitFirstStarStar : List Char → Option (List Char × List Char)
  | [] => none
  | '*' :: '*' :: rest => some ([], rest)
  | c :: rest => (splitFirstStarStar rest).map (fun p => (c :: p.1, p.2))

/-- Modelled from the spec (claim C2's wording, for comparison with the
source-derived `matchGlobPattern`): a pattern containing the recursive
wildcard token is split at its FIRST occurrence into a leading part and a
trailing part, and the match succeeds iff the path starts with the
slash-trimmed leading part (vacuously when empty) and ends with the
slash-trimmed trailing part (vacuously when empty), both tested
independently. Patterns without the token are outside the claim's domain
and are delegated to plain glob matching. -/
def matchGlobPatternSpec (path pattern : String) : Bool :=
  match splitFirstStarStar pattern.toList with
  | some (p1, p2) =>
    let pre := trimTrailingSlash (String.mk p1)
    let suf := trimLeadingSlash (String.mk p2)
    (pre == "" || strStartsWith path pre) && (suf == "" || strEndsWith path suf)
  | none => goMatch pattern path

/-! ### Go `path/filepath` lexical path functions

The Go code joins, cleans and relativizes purely lexical slash-separated
paths (`util.JoinPath` is `filepath.ToSlash(filepath.Join(...))`). These are
modelled element-wise on slash-separated strings. -/

/-- Split a character list at every `/`. -/
def splitOnSlash : List Char → List (List Char)
  | [] => [[]]
  | '/' :: rest => [] :: splitOnSlash rest
  | c :: rest =>
    match splitOnSlash rest with
    | [] => [[c]]
    | h :: t => (c :: h) :: t

/-- Join path elements with `/`. -/
def joinSlash : List (List Char) → List Char
  | [] => []
  | [x] => x
  | x :: xs => x ++ '/' :: joinSlash xs

/-- The element-stack pass of Go `filepath.Clean`: `..` pops the previous
element (or is kept at the front of a relative path, or dropped at the root
of a rooted path); other elements are pushed. -/
def cleanFold (rooted : Bool) (elems : List (List Char)) : List (List Char) :=
  (elems.foldl
    (fun acc e =>
      if e = ['.', '.'] then
        match acc with
        | [] => if rooted then [] else [e]
        | x :: rest => if x = ['.', '.'] then e :: acc else rest
      else e :: acc) []).reverse

/-- Go `filepath.Clean` on forward-slash paths: collapse repeated
separators, drop `.` elements, resolve inner `..` elements, keep leading
`..` of relative paths, return `.` for an empty result. -/
def goClean (p : String) : String :=
  let cs := p.toList
  let rooted : Bool := cs.head? == some '/'
  let elems := (splitOnSlash cs).filter (fun e => e != [] && e != ['.'])
  let out := joinSlash (cleanFold rooted elems)
  if rooted then String.mk ('/' :: out)
  else if out = [] then "." else String.mk out

/-- Go `filepath.Join` of two elements: skip empty arguments, otherwise
concatenate with a separator, then `Clean`. -/
def goJoin (a b : String) : String :=
  if a = "" && b = "" then ""
  else if a = "" then goClean b
  else if b = "" then goClean a
  else goClean (a ++ ("/") ++ b)

/-- Drop the longest common leading run of two element lists, returning the
remainders. -/
def dropCommon : List (List Char) → List (List Char) → List (List Char) × List (List Char)
  | x :: xs, y :: ys => if x = y then dropCommon xs ys else (x :: xs, y :: ys)
  | xs, ys => (xs, ys)

/-- Go `filepath.Rel(base, targ)` on forward-slash paths: clean both, peel
the common leading elements, then climb with one `..` per remaining base
element; `none` models Go's error (mixed rooted-ness, or a remaining `..`
in the base). -/
def goRel (base targ : String) : Option String :=
  let b := goClean base
  let t := goClean targ
  if b = t then some (".")
  else
    let b2 := if b = "." then "" else b
    let broot : Bool := b2.toList.head? == some '/'
    let troot : Bool := t.toList.head? == some '/'
    if broot != troot then none
    else
      let belems := (splitOnSlash b2.toList).filter (fun e => e != [])
      let telems := (splitOnSlash t.toList).filter (fun e => e != [])
      let rems := dropCommon belems telems
      if rems.1.head? == some ['.', '.'] then none
      else some (String.mk (joinSlash (List.replicate rems.1.length ['.', '.'] ++ rems.2)))

/-- Go `filepath.Base` on forward-slash paths: the last element after
dropping trailing slashes; `.` for the empty path, `/` for all-slash paths. -/
def goBase (p : String) : String :=
  if p = "" then "."
  else
    match ((splitOnSlash p.toList).filter (fun e => e != [])).getLast? with
    | some e => String.mk e
    | none => "/"

/-- Go `filepath.Dir` on forward-slash paths: everything up to (and
including) the final slash, cleaned; `.` when there is no slash. -/
def goDir (p : String) : String :=
  let r := p.toList.reverse
  if r.contains '/' then goClean (String.mk ((r.dropWhile (fun c => c ≠ '/')).reverse))
  else "."

/-- Go `filepath.ToSlash`: replace every backslash by a forward slash. -/
def toSlash (s : String) : String :=
  String.mk (s.toList.map (fun c => if c = '\\' then '/' else c))

/-! ### Stack data model (stack types source) -/

/-- AtlantisStackConfig: the `atlantis:` block of an external stack record. -/
structure AtlantisStackConfig where
  Workflow : String := ""
  AutoPlan : Bool := false
  Parallel : Bool := false
  ApplyRequirements : List String := []
  ExecutionOrderGroup : Int := 0
  Workspace : String := ""
  TerraformVersion : String := ""
deriving DecidableEq

/-- ExternalStackConfig: one stack record of the external definition file. -/
structure ExternalStackConfig where
  Name : String := ""
  Description : String := ""
  Include : List String := []
  Exclude : List String := []
  Modules : List String := []
  DependsOn : List String := []
  Atlantis : AtlantisStackConfig := {}
deriving DecidableEq

/-- StackDefinitionFile: the external YAML/JSON stack definition document. -/
structure StackDefinitionFile where
  Version : Int := 0
  Stacks : List ExternalStackConfig := []
deriving DecidableEq

/-- StackAtlantisConfig: Atlantis-facing overrides carried on an internal
Stack. -/
structure StackAtlantisConfig where
  Workflow : String := ""
  AutoPlan : Bool := false
  Parallel : Bool := false
  ApplyRequirements : List String := []
  Workspace : String := ""
  TerraformVersion : String := ""
deriving DecidableEq

/-- Stack: internal representation of a logical grouping of modules. -/
structure Stack where
  Name : String := ""
  Description : String := ""
  Modules : List String := []
  Dependencies : List String := []
  AtlantisConfig : StackAtlantisConfig := {}
  ExecutionOrder : Int := 0
  Source : String := ""
deriving DecidableEq

/-! ### `ValidateStackDefinition` (stack definitions source, lines 206–242) -/

/-- The distinct validation failures of `ValidateStackDefinition`; each
constructor stands for one of the formatted Go error messages (unsupported
version, no stacks defined, unnamed stack at an index, duplicate stack
name, neither include patterns nor modules, empty include pattern). -/
inductive StackDefError where
  | unsupportedVersion (version : Int)
  | noStacksDefined
  | stackHasNoName (index : Nat)
  | duplicateStackName (name : String)
  | mustSpecifyEither (name : String)
  | emptyIncludePattern (name : String)
deriving DecidableEq

/-- The per-stack loop of `ValidateStackDefinition`: `seenNames` is the set
of names already seen (the Go `stackNames` map) and `i` the current index. -/
def validateStacksFrom : List ExternalStackConfig → List String → Nat → Option StackDefError
  | [], _, _ => none
  | stack :: rest, seenNames, i =>
    if stack.Name = "" then some (.stackHasNoName i)
    else if stack.Name ∈ seenNames then some (.duplicateStackName stack.Name)
    else if stack.Include = [] ∧ stack.Modules = [] then some (.mustSpecifyEither stack.Name)
    else if ("" : String) ∈ stack.Include then some (.emptyIncludePattern stack.Name)
    else validateStacksFrom rest (stack.Name :: seenNames) (i + 1)

/-- `ValidateStackDefinition`: version must be 1, at least one stack, then
the per-stack checks in order. -/
def ValidateStackDefinition (d : StackDefinitionFile) : Option StackDefError :=
  if d.Version ≠ 1 then some (.unsupportedVersion d.Version)
  else if d.Stacks = [] then some .noStacksDefined
  else validateStacksFrom d.Stacks [] 0

/-- A stack definition with version 2, otherwise well-formed. -/
def stackDefV2 : StackDefinitionFile :=
  { Version := 2, Stacks := [{ Name := "a", Include := ["x/**"] }] }

/-- A version-1 definition whose single stack has neither include patterns
nor explicit modules. -/
def stackDefNeither : StackDefinitionFile :=
  { Version := 1, Stacks := [{ Name := "a" }] }

/-- A version-1 definition with two stacks sharing the name `a`. -/
def stackDefDup : StackDefinitionFile :=
  { Version := 1,
    Stacks := [{ Name := "a", Include := ["x/**"] },
               { Name := "a", Include := ["y/**"] }] }

/-! ### `MatchModuleToStacks` (stack definitions source, lines 272–326) -/

/-- The path normalization at the top of `MatchModuleToStacks`: the module
path made relative to the git root (falling back to the raw module path
when `filepath.Rel` fails), converted to forward slashes. -/
def normalizeRelPath (gitRoot modulePath : String) : String :=
  toSlash (match goRel gitRoot modulePath with
           | some r => r
           | none => modulePath)

/-- The per-stack decision of `MatchModuleToStacks`: a non-empty explicit
module list is authoritative (plain suffix-or-equality test of the
normalized relative path against each listed module); otherwise at least
one include pattern must match and no exclude pattern may match. -/
def stackMatchesModule (relPath : String) (stack : ExternalStackConfig) : Bool :=
  if stack.Modules ≠ [] then
    stack.Modules.any (fun m => strEndsWith relPath (toSlash m) || relPath == toSlash m)
  else
    stack.Include.any (fun pat => matchGlobPattern relPath pat) &&
      !(stack.Exclude.any (fun pat => matchGlobPattern relPath pat))

/-- `MatchModuleToStacks(modulePath, stacks, gitRoot)`: the names of the
stacks the module belongs to, in stack-list order. -/
def MatchModuleToStacks (modulePath : String) (stackList : List ExternalStackConfig)
    (gitRoot : String) : List String :=
  (stackList.filter
    (fun stack => stackMatchesModule (normalizeRelPath gitRoot modulePath) stack)).map
    ExternalStackConfig.Name

/-- A stack listing the explicit module `shared/vpc`. -/
def vpcStack : ExternalStackConfig := { Name := "network", Modules := ["shared/vpc"] }

/-- A pattern-based stack: include `x/**`, exclude `x/secret/**`. -/
def c7Stack : ExternalStackConfig :=
  { Name := "p", Include := ["x/**"], Exclude := ["x/secret/**"] }

/-! ### Local module-source resolution (OpenTofu parse source, lines 88–164,
and parse source)

`tfconfig.LoadModule` is abstracted as a function `fs` from a module path to
the parse outcome (the module-call source strings and the diagnostics). The
Go recursion carries no termination guarantee, so it is embedded with a fuel
parameter: a `none` result means the Go code has not returned within that
recursion depth, and a `none` result at every depth means it never returns. -/

/-- One diagnostic of the external terraform-config-inspect parser. -/
structure Diag where
  IsError : Bool
  Summary : String
deriving DecidableEq

/-- The outcome of `tfconfig.LoadModule` on one module directory: the
source strings of its module calls, plus the diagnostics. -/
structure LoadedModule where
  ModuleCalls : List String
  Diags : List Diag
deriving DecidableEq

deriving instance DecidableEq for Except

/-- Go `diags.HasErrors()`. -/
def hasErrors (diags : List Diag) : Bool :=
  diags.any (fun d => d.IsError)

/-- The provider-reference detection of
`parseTerraformLocalModuleSourceOpenTofu`: a diagnostic whose summary text
contains one of the two known provider-reference error summaries
(a substring match, not a check of format or version fields). -/
def isProviderRefDiag (d : Diag) : Bool :=
  strContains d.Summary ("Invalid provider reference") ||
    strContains d.Summary ("Invalid provider configuration address")

/-- `localModuleSourcePrefixes`. -/
def localModuleSourcePrefixes : List String := ["./", "../", ".\\", "..\\"]

/-- `isLocalTerraformModuleSource`: the raw source starts with a local
path form. -/
def isLocalTerraformModuleSource (raw : String) : Bool :=
  localModuleSourcePrefixes.any (fun p => strStartsWith raw p)

/-- `parseTerraformFilesWithOpenTofuSupport`: the syntax-tolerant fallback;
it returns just the basic terraform file pattern. -/
def parseTerraformFilesWithOpenTofuSupport (path : String) : List String :=
  [("*.tf*")]

/-- Insert a string into the result set (the Go `sourceMap` map) if absent. -/
def insertUnique (l : List String) (x : String) : List String :=
  if x ∈ l then l else l ++ [x]

/-- The module-call loop shared by both resolver variants: for each local
source, join it to the current path, expand the `*.tf*` glob, skip it if
already visited, otherwise recurse through `recur` (the resolver at the
remaining recursion depth), propagating errors and merging sub-results into
the visited set. -/
def resolveLocalCalls (recur : String → Option (Except (List Diag) (List String)))
    (path : String) :
    List String → List String → Option (Except (List Diag) (List String))
  | [], acc => some (Except.ok acc)
  | mc :: rest, acc =>
    if isLocalTerraformModuleSource mc then
      let modulePath := goJoin path mc
      let modulePathGlob := goJoin modulePath ("*.tf*")
      if modulePathGlob ∈ acc then resolveLocalCalls recur path rest acc
      else
        match recur modulePath with
        | none => none
        | some (Except.error e) => some (Except.error e)
        | some (Except.ok subs) =>
          resolveLocalCalls recur path rest (subs.foldl insertUnique (acc ++ [modulePathGlob]))
    else resolveLocalCalls recur path rest acc

/-- `parseTerraformLocalModuleSourceOpenTofu` (fuel-indexed): parse the
module; on parse errors fall back to the tolerant path when a
provider-reference summary is present, otherwise fail with the diagnostics;
on success run the module-call loop with a fresh visited set. -/
def parseTerraformLocalModuleSourceOpenTofu (fs : String → LoadedModule) :
    Nat → String → Option (Except (List Diag) (List String))
  | 0, _ => none
  | Nat.succ n, path =>
    let m := fs path
    if hasErrors m.Diags then
      if m.Diags.any isProviderRefDiag then
        some (Except.ok (parseTerraformFilesWithOpenTofuSupport path))
      else some (Except.error m.Diags)
    else resolveLocalCalls (parseTerraformLocalModuleSourceOpenTofu fs n) path m.ModuleCalls []

/-- `parseTerraformLocalModuleSource` (fuel-indexed): try the OpenTofu-aware
resolver first; on its error, reload the module and run the same loop
recursing into itself. -/
def parseTerraformLocalModuleSource (fs : String → LoadedModule) :
    Nat → String → Option (Except (List Diag) (List String))
  | 0, _ => none
  | Nat.succ n, path =>
    match parseTerraformLocalModuleSourceOpenTofu fs (Nat.succ n) path with
    | none => none
    | some (Except.ok sources) => some (Except.ok sources)
    | some (Except.error _) =>
      let m := fs path
      if hasErrors m.Diags then some (Except.error m.Diags)
      else resolveLocalCalls (parseTerraformLocalModuleSource fs n) path m.ModuleCalls []

/-- A filesystem where every module consists of a single self-referencing
local module call `./`. -/
def cyclicFS : String → LoadedModule :=
  fun _ => { ModuleCalls := ["./"], Diags := [] }

/-- A filesystem where every module parses cleanly and references one
remote (non-local) module source. -/
def remoteOnlyFS : String → LoadedModule :=
  fun _ => { ModuleCalls := ["git::https://example.com/modules/app"], Diags := [] }

/-- A filesystem where every parse fails with the OpenTofu
provider-reference diagnostic. -/
def providerErrFS : String → LoadedModule :=
  fun _ =>
    { ModuleCalls := [],
      Diags := [{ IsError := true, Summary := "Invalid provider reference" }] }

/-- A filesystem where every parse fails with an unrelated syntax error. -/
def syntaxErrFS : String → LoadedModule :=
  fun _ =>
    { ModuleCalls := [],
      Diags := [{ IsError := true, Summary := "Unclosed configuration block" }] }

/-- Modelled from the spec (claim C5's wording, for comparison with the
source-derived resolver): the singleton watch-set consisting of the
module's own file glob. -/
def ownGlobOnly (path : String) : List String :=
  [goJoin path ("*.tf*")]

/-! ### In-tree stack marker files (parse_stack_hcl.go) -/

/-- A `unit` block of a terragrunt.stack.hcl file. -/
structure UnitBlock where
  Name : String
  Source : Option String := none
  Path : Option String := none
deriving DecidableEq

/-- A `stack` block of a terragrunt.stack.hcl file. -/
structure StackBlock where
  Name : String
  Description : Option String := none
deriving DecidableEq

/-- The decoded body of a terragrunt.stack.hcl file. -/
structure ParsedStackHcl where
  Units : List UnitBlock
  Stacks : List StackBlock
deriving DecidableEq

/-- A complete stack definition extracted from one HCL marker file. -/
structure StackHclDefinition where
  FilePath : String
  Units : List UnitBlock
  stackBlock : Option StackBlock
deriving DecidableEq

/-- `ParseStackHclFile` after the external read/parse/decode steps (file
reading, HCL parsing and body decoding are external collaborators; this is
the stack-block selection of lines 80–93): the FIRST stack block in
declaration order is kept, the remaining ones only produce a non-fatal
warning. -/
def ParseStackHclFile (path : String) (parsed : ParsedStackHcl) : StackHclDefinition :=
  { FilePath := path, Units := parsed.Units, stackBlock := parsed.Stacks.head? }

/-- The per-unit path resolution of `ConvertStackHclToStacks` (lines
167–197): `fileExists` abstracts the `os.Stat` check for the unit's
`terragrunt.hcl`; a declared path is resolved against the stack directory,
a unit with only a source uses the source as-is, a unit with neither is
skipped (`none`). -/
def resolveUnitPath (fileExists : String → Bool) (stackDir : String) (u : UnitBlock) :
    Option String :=
  match u.Path with
  | some p =>
    let unitPath := goJoin stackDir p
    if !fileExists (goJoin unitPath ("terragrunt.hcl")) then
      if goBase unitPath = ("terragrunt.hcl") then some (goDir unitPath) else some unitPath
    else some unitPath
  | none =>
    match u.Source with
    | some s => some s
    | none => none

/-- `ConvertStackHclToStacks` (lines 150–227): each definition yields one
stack, named after its stack block when present, else after the directory
containing the file when it declares units, else after the file path
itself; unit paths are resolved, made relative to the git root and
slash-normalized. -/
def ConvertStackHclToStacks (fileExists : String → Bool)
    (definitions : List StackHclDefinition) (gitRoot : String) : List Stack :=
  definitions.map (fun d =>
    let stackName :=
      match d.stackBlock with
      | some sb => sb.Name
      | none => if d.Units ≠ [] then goBase (goDir d.FilePath) else d.FilePath
    let stackDir := goDir d.FilePath
    let unitPaths := d.Units.filterMap (fun u =>
      (resolveUnitPath fileExists stackDir u).map (fun up =>
        toSlash (match goRel gitRoot up with
                 | some r => r
                 | none => up)))
    let description :=
      match d.stackBlock with
      | some sb =>
        match sb.Description with
        | some ds => ds
        | none => ""
      | none => ""
    { Name := stackName,
      Description := description,
      Modules := unitPaths,
      Dependencies := [],
      AtlantisConfig := {},
      ExecutionOrder := 0,
      Source := "terragrunt.stack.hcl" })

/-- A decoded marker file with one unit and two stack blocks (the first
named `prod`). -/
def twoBlocksParsed : ParsedStackHcl :=
  { Units := [{ Name := "vpc", Path := some ("vpc") }],
    Stacks := [{ Name := "prod" }, { Name := "staging" }] }

/-- A marker-file definition with one unit and no stack block, located at
`envs/prod/terragrunt.stack.hcl`. -/
def noBlockDef : StackHclDefinition :=
  { FilePath := "envs/prod/terragrunt.stack.hcl",
    Units := [{ Name := "vpc", Path := some ("vpc") }],
    stackBlock := none }

/-! ### Stack project generation (stack manager source, lines 584–633) -/

/-- Autoplan block of an output project. -/
structure AutoplanConfig where
  Enabled : Bool
  WhenModified : List String
deriving DecidableEq

/-- One output project record; the three optional fields are
pointer/omitempty fields in the output document, absent when `none`. -/
structure AtlantisProject where
  Dir : String
  Name : String
  Workflow : String
  Workspace : String
  TerraformVersion : String
  Autoplan : AutoplanConfig
  ApplyRequirements : Option (List String)
  ExecutionOrderGroup : Option Int
  DependsOn : Option (List String)
deriving DecidableEq

/-- Modelled from the spec: `uniqueStrings` (referenced by the stack
manager but defined outside the provided sources) deduplicates a string
list — the spec requires watch-pattern sets to be duplicate-free — keeping
first occurrences in order. -/
def uniqueStrings (l : List String) : List String :=
  l.foldl insertUnique []

/-- Lookup in the stack manager's `stackToModules` map (an association
list here); a missing key contributes nothing. -/
def lookupStackModules (stackToModules : List (String × List String)) (k : String) :
    List String :=
  match stackToModules.find? (fun p => p.1 == k) with
  | some p => p.2
  | none => []

/-- `findCommonParent` (a stub in the source: it always returns `.`). -/
def findCommonParent (modules : List String) : String := "."

/-- `GenerateStackProject`: build the output project for a stack from the
fixed base watch patterns plus the member modules of every stack this stack
depends on; configuration fields are copied from the stack's resolved
configuration and the three optional fields are set only when non-empty or
positive. -/
def GenerateStackProject (stackToModules : List (String × List String)) (stack : Stack) :
    AtlantisProject :=
  let allDependencies :=
    stack.Dependencies.foldl
      (fun acc depStack => acc ++ lookupStackModules stackToModules depStack)
      [("*.hcl"), ("*.tf*"), ("**/*.hcl"), ("**/*.tf*")]
  { Dir := findCommonParent stack.Modules,
    Name := stack.Name,
    Workflow := stack.AtlantisConfig.Workflow,
    Workspace := stack.AtlantisConfig.Workspace,
    TerraformVersion := stack.AtlantisConfig.TerraformVersion,
    Autoplan :=
      { Enabled := stack.AtlantisConfig.AutoPlan,
        WhenModified := uniqueStrings allDependencies },
    ApplyRequirements :=
      if stack.AtlantisConfig.ApplyRequirements ≠ [] then
        some stack.AtlantisConfig.ApplyRequirements
      else none,
    ExecutionOrderGroup :=
      if stack.ExecutionOrder > 0 then some stack.ExecutionOrder else none,
    DependsOn := if stack.Dependencies ≠ [] then some stack.Dependencies else none }

/-- A concrete stack exercising the optional fields of the generated
project: non-empty apply requirements, positive order, one dependency. -/
def demoStack : Stack :=
  { Name := "prod",
    Modules := ["a", "b"],
    Dependencies := ["shared"],
    AtlantisConfig :=
      { Workflow := "wf", AutoPlan := true, ApplyRequirements := ["approved"],
        Workspace := "ws", TerraformVersion := "1.5.0" },
    ExecutionOrder := 10 }

/-! ## Theorems -/

/-- C2 counterexample: the pattern `a/**/b/**` contains the recursive
wildcard token, and under the claimed first-occurrence-split semantics the
path `a/q/b/zzz` must NOT match (it does not end with `b/**`); but the code
splits at every occurrence, obtains three parts, falls through to
`filepath.Match`, and matches. -/
theorem c2_counterexample :
    matchGlobPattern ("a/q/b/zzz") ("a/**/b/**") = true ∧
    matchGlobPatternSpec ("a/q/b/zzz") ("a/**/b/**") = false := by
  constructor <;> decide

/-- C2 (amended): for every pattern containing the recursive wildcard token
EXACTLY ONCE (so that splitting around `**` yields exactly two parts),
`matchGlobPattern` returns true iff the path starts with the slash-trimmed
part before the token (vacuously when it is empty) and ends with the
slash-trimmed part after the token (vacuously when it is empty), each
condition tested independently; in particular
`matchGlobPattern "environments/production/networking/vpc"
"environments/production/**"` is true and
`matchGlobPattern "staging/app/main.tf" "production/**"` is false.
A pattern containing the token more than once instead falls through to
single-segment glob matching. -/
theorem c2_theorem :
    (∀ path pattern p1 p2,
      strContains pattern ("**") = true →
      splitStarStar pattern.toList = [p1, p2] →
      matchGlobPattern path pattern =
        ((trimTrailingSlash (String.mk p1) == "" ||
            strStartsWith path (trimTrailingSlash (String.mk p1))) &&
         (trimLeadingSlash (String.mk p2) == "" ||
            strEndsWith path (trimLeadingSlash (String.mk p2))))) ∧
    (∀ path pattern parts,
      strContains pattern ("**") = true →
      splitStarStar pattern.toList = parts →
      parts.length ≠ 2 →
      matchGlobPattern path pattern = goMatch pattern path) ∧
    matchGlobPattern ("environments/production/networking/vpc")
      ("environments/production/**") = true ∧
    matchGlobPattern ("staging/app/main.tf") ("production/**") = false := by
  refine ⟨?_, ?_, by decide, by decide⟩
  · intro path pattern p1 p2 hc hs
    unfold matchGlobPattern
    rw [hc, if_pos rfl, hs]
    by_cases hA : trimTrailingSlash (String.mk p1) = "" <;>
      by_cases hC : trimLeadingSlash (String.mk p2) = "" <;>
        cases hB : strStartsWith path (trimTrailingSlash (String.mk p1)) <;>
          cases hD : strEndsWith path (trimLeadingSlash (String.mk p2)) <;>
            simp [hA, hB, hC, hD, bne_iff_ne, beq_iff_eq]
  · intro path pattern parts hc hs hlen
    unfold matchGlobPattern
    rw [hc, if_pos rfl, hs]
    match parts, hlen with
    | [], _ => rfl
    | [_], _ => rfl
    | [a, b], h => exact absurd rfl h
    | _ :: _ :: _ :: _, _ => rfl

/-- C2 witness: the general two-part characterization applied at the claim's
own positive example. -/
theorem c2_witness :
    matchGlobPattern ("environments/production/networking/vpc")
      ("environments/production/**") =
      ((trimTrailingSlash (String.mk ("environments/production/").toList) == "" ||
          strStartsWith ("environments/production/networking/vpc")
            (trimTrailingSlash (String.mk ("environments/production/").toList))) &&
       (trimLeadingSlash (String.mk ("").toList) == "" ||
          strEndsWith ("environments/production/networking/vpc")
            (trimLeadingSlash (String.mk ("").toList)))) :=
  c2_theorem.1 _ _ _ _ (by decide) (by decide)

/-- The per-stack validation loop succeeds iff every stack passes its local
checks, the names are pairwise distinct, and no name collides with an
already-seen one. -/
theorem validateStacksFrom_eq_none_iff (l : List ExternalStackConfig) (seen : List String)
    (i : Nat) :
    validateStacksFrom l seen i = none ↔
      ((∀ s ∈ l, s.Name ≠ "" ∧ ¬(s.Include = [] ∧ s.Modules = []) ∧ ("" : String) ∉ s.Include) ∧
        (l.map ExternalStackConfig.Name).Nodup ∧ ∀ s ∈ l, s.Name ∉ seen) := by
  induction l generalizing seen i with
  | nil => simp [validateStacksFrom]
  | cons s rest ih =>
    simp only [validateStacksFrom]
    by_cases h1 : s.Name = ""
    · simp [h1]
    · rw [if_neg h1]
      by_cases h2 : s.Name ∈ seen
      · rw [if_pos h2]
        constructor
        · intro h; exact (Option.some_ne_none _ h).elim
        · rintro ⟨-, -, hseen⟩
          exact absurd h2 (hseen s (List.mem_cons_self s rest))
      · rw [if_neg h2]
        by_cases h3 : s.Include = [] ∧ s.Modules = []
        · rw [if_pos h3]
          constructor
          · intro h; exact (Option.some_ne_none _ h).elim
          · rintro ⟨hP, -, -⟩
            exact absurd h3 (hP s (List.mem_cons_self s rest)).2.1
        · rw [if_neg h3]
          by_cases h4 : ("" : String) ∈ s.Include
          · rw [if_pos h4]
            constructor
            · intro h; exact (Option.some_ne_none _ h).elim
            · rintro ⟨hP, -, -⟩
              exact absurd h4 (hP s (List.mem_cons_self s rest)).2.2
          · rw [if_neg h4, ih]
            constructor
            · rintro ⟨hP, hN, hS⟩
              refine ⟨?_, ?_, ?_⟩
              · intro x hx
                rcases List.mem_cons.mp hx with rfl | hx
                · exact ⟨h1, h3, h4⟩
                · exact hP x hx
              · rw [List.map_cons, List.nodup_cons]
                refine ⟨?_, hN⟩
                intro hmem
                obtain ⟨x, hx, hxe⟩ := List.mem_map.mp hmem
                exact hS x hx (by rw [hxe]; exact List.mem_cons_self _ _)
              · intro x hx
                rcases List.mem_cons.mp hx with rfl | hx
                · exact h2
                · exact fun hm => hS x hx (List.mem_cons_of_mem _ hm)
            · rintro ⟨hP, hN, hS⟩
              rw [List.map_cons, List.nodup_cons] at hN
              refine ⟨fun x hx => hP x (List.mem_cons_of_mem _ hx), hN.2, ?_⟩
              intro x hx hm
              rcases List.mem_cons.mp hm with he | hm
              · exact hN.1 (List.mem_map.mpr ⟨x, hx, he⟩)
              · exact hS x (List.mem_cons_of_mem _ hx) hm

/-- C3: `ValidateStackDefinition` returns an error exactly when the version
differs from 1, or no stacks are defined, or some stack has an empty name,
or two stacks share a name, or some stack has neither include patterns nor
explicit modules, or some stack has an empty include pattern; moreover a
version-2 definition fails with the unsupported-version error, a stack with
empty include and modules fails with the must-specify-either error, and a
repeated name fails with the duplicate-stack-name error. -/
theorem c3_theorem :
    (∀ d : StackDefinitionFile,
      (ValidateStackDefinition d).isSome = true ↔
        (d.Version ≠ 1 ∨ d.Stacks = [] ∨ (∃ s ∈ d.Stacks, s.Name = "") ∨
          ¬(d.Stacks.map ExternalStackConfig.Name).Nodup ∨
          (∃ s ∈ d.Stacks, s.Include = [] ∧ s.Modules = []) ∨
          (∃ s ∈ d.Stacks, ("" : String) ∈ s.Include))) ∧
    ValidateStackDefinition stackDefV2 = some (StackDefError.unsupportedVersion 2) ∧
    ValidateStackDefinition stackDefNeither = some (StackDefError.mustSpecifyEither ("a")) ∧
    ValidateStackDefinition stackDefDup = some (StackDefError.duplicateStackName ("a")) := by
  refine ⟨?_, by decide, by decide, by decide⟩
  intro d
  have hnone : ValidateStackDefinition d = none ↔
      (d.Version = 1 ∧ d.Stacks ≠ [] ∧
        (∀ s ∈ d.Stacks,
          s.Name ≠ "" ∧ ¬(s.Include = [] ∧ s.Modules = []) ∧ ("" : String) ∉ s.Include) ∧
        (d.Stacks.map ExternalStackConfig.Name).Nodup) := by
    unfold ValidateStackDefinition
    by_cases hv : d.Version = 1
    · by_cases hs : d.Stacks = []
      · simp [hv, hs]
      · rw [if_neg (by simp [hv]), if_neg hs, validateStacksFrom_eq_none_iff]
        simp [hv, hs]
    · simp [hv]
  rw [Option.isSome_iff_ne_none, Ne, hnone]
  constructor
  · intro h
    by_contra hc
    push_neg at hc
    obtain ⟨hA, hB, hC, hD, hE, hF⟩ := hc
    exact h ⟨hA, hB, fun s hs => ⟨hC s hs, fun hab => hE s hs hab.1 hab.2, hF s hs⟩, hD⟩
  · intro hdisj hconj
    obtain ⟨hA, hB, hC, hD⟩ := hconj
    rcases hdisj with h | h | ⟨s, hs, h⟩ | h | ⟨s, hs, h⟩ | ⟨s, hs, h⟩
    · exact h hA
    · exact hB h
    · exact (hC s hs).1 h
    · exact h hD
    · exact (hC s hs).2.1 h
    · exact (hC s hs).2.2 h

/-- C6: for a stack with a non-empty explicit module list, membership is
decided by that list alone — replacing the include/exclude patterns by any
other (even contradictory) patterns never changes the outcome, and the
outcome is exactly the suffix-or-equality test against the explicit
modules. -/
theorem c6_theorem (modulePath gitRoot : String) (s : ExternalStackConfig)
    (hmod : s.Modules ≠ []) (inc exc : List String) :
    MatchModuleToStacks modulePath [{ s with Include := inc, Exclude := exc }] gitRoot =
      MatchModuleToStacks modulePath [s] gitRoot ∧
    (s.Name ∈ MatchModuleToStacks modulePath [s] gitRoot ↔
      s.Modules.any (fun m =>
        strEndsWith (normalizeRelPath gitRoot modulePath) (toSlash m) ||
          normalizeRelPath gitRoot modulePath == toSlash m) = true) := by
  constructor
  · have hsm : ∀ r : String,
        stackMatchesModule r { s with Include := inc, Exclude := exc } =
          stackMatchesModule r s := by
      intro r
      simp [stackMatchesModule, hmod]
    simp [MatchModuleToStacks, hsm, List.filter_cons, apply_ite]
  · cases h : s.Modules.any (fun m =>
        strEndsWith (normalizeRelPath gitRoot modulePath) (toSlash m) ||
          normalizeRelPath gitRoot modulePath == toSlash m) <;>
      simp [MatchModuleToStacks, stackMatchesModule, hmod, h]

/-- C6 witness: the explicit-modules stack `vpcStack` matched against
`other/shared/vpc`, with contradictory patterns spliced in. -/
theorem c6_witness :
    MatchModuleToStacks ("other/shared/vpc")
        [{ vpcStack with Include := ["nope/**"], Exclude := ["**"] }] (".") =
      MatchModuleToStacks ("other/shared/vpc") [vpcStack] (".") ∧
    (vpcStack.Name ∈ MatchModuleToStacks ("other/shared/vpc") [vpcStack] (".") ↔
      vpcStack.Modules.any (fun m =>
        strEndsWith (normalizeRelPath (".") ("other/shared/vpc")) (toSlash m) ||
          normalizeRelPath (".") ("other/shared/vpc") == toSlash m) = true) :=
  c6_theorem ("other/shared/vpc") (".") vpcStack (by decide) ["nope/**"] ["**"]

/-- C7: for a pattern-based stack (empty explicit module list), the module
is never assigned when no include pattern matches — whatever the exclude
patterns are, they are not consulted — and the module is never assigned
when some exclude pattern matches. -/
theorem c7_theorem (modulePath gitRoot : String) (s : ExternalStackConfig)
    (hmod : s.Modules = []) :
    ((s.Include.any
        (fun pat => matchGlobPattern (normalizeRelPath gitRoot modulePath) pat)) = false →
      ∀ exc, MatchModuleToStacks modulePath [{ s with Exclude := exc }] gitRoot = []) ∧
    ((s.Exclude.any
        (fun pat => matchGlobPattern (normalizeRelPath gitRoot modulePath) pat)) = true →
      MatchModuleToStacks modulePath [s] gitRoot = []) := by
  constructor
  · intro h exc
    simp [MatchModuleToStacks, stackMatchesModule, hmod, h]
  · intro h
    simp [MatchModuleToStacks, stackMatchesModule, hmod, h]

/-- C7 witness: `z/app` matches no include pattern of `c7Stack` (so any
exclude list gives no assignment), and `x/secret/app` matches an exclude
pattern (so it is not assigned). -/
theorem c7_witness :
    (∀ exc, MatchModuleToStacks ("z/app") [{ c7Stack with Exclude := exc }] (".") = []) ∧
    MatchModuleToStacks ("x/secret/app") [c7Stack] (".") = [] :=
  ⟨(c7_theorem ("z/app") (".") c7Stack (by decide)).1 (by decide),
   (c7_theorem ("x/secret/app") (".") c7Stack (by decide)).2 (by decide)⟩

/-- C10: for a stack with a non-empty explicit module list, the module is
assigned exactly when its normalized repository-relative path ends with one
of the listed module strings (a plain string-suffix test, equality being a
special case of suffix); in particular the module `other/shared/vpc` is
assigned to the stack listing only `shared/vpc`. -/
theorem c10_theorem :
    (∀ modulePath gitRoot : String, ∀ s : ExternalStackConfig, s.Modules ≠ [] →
      (s.Name ∈ MatchModuleToStacks modulePath [s] gitRoot ↔
        ∃ m ∈ s.Modules,
          strEndsWith (normalizeRelPath gitRoot modulePath) (toSlash m) = true)) ∧
    MatchModuleToStacks ("other/shared/vpc") [vpcStack] (".") = [("network")] := by
  refine ⟨?_, by decide⟩
  intro modulePath gitRoot s hmod
  have hrefl : ∀ t : String, strEndsWith t t = true := by
    intro t
    simp [strEndsWith, List.isSuffixOf_iff_suffix]
  have hmodb : stackMatchesModule (normalizeRelPath gitRoot modulePath) s =
      s.Modules.any (fun m =>
        strEndsWith (normalizeRelPath gitRoot modulePath) (toSlash m) ||
          normalizeRelPath gitRoot modulePath == toSlash m) := by
    simp [stackMatchesModule, hmod]
  have hiff : stackMatchesModule (normalizeRelPath gitRoot modulePath) s = true ↔
      ∃ m ∈ s.Modules,
        strEndsWith (normalizeRelPath gitRoot modulePath) (toSlash m) = true := by
    rw [hmodb, List.any_eq_true]
    constructor
    · rintro ⟨m, hm, hx⟩
      rw [Bool.or_eq_true] at hx
      rcases hx with h | h
      · exact ⟨m, hm, h⟩
      · refine ⟨m, hm, ?_⟩
        rw [beq_iff_eq] at h
        rw [h]
        exact hrefl _
    · rintro ⟨m, hm, hx⟩
      refine ⟨m, hm, ?_⟩
      rw [hx]
      rfl
  rw [← hiff]
  simp only [MatchModuleToStacks]
  cases hf : stackMatchesModule (normalizeRelPath gitRoot modulePath) s <;> simp [hf]

/-- C10 witness: the suffix characterization applied to `vpcStack` and the
module path `other/shared/vpc`. -/
theorem c10_witness :
    vpcStack.Name ∈ MatchModuleToStacks ("other/shared/vpc") [vpcStack] (".") ↔
      ∃ m ∈ vpcStack.Modules,
        strEndsWith (normalizeRelPath (".") ("other/shared/vpc")) (toSlash m) = true :=
  c10_theorem.1 ("other/shared/vpc") (".") vpcStack (by decide)

/-- Membership in the visited set is preserved by `insertUnique`. -/
theorem mem_insertUnique (l : List String) (x y : String) (h : x ∈ l) :
    x ∈ insertUnique l y := by
  unfold insertUnique
  split <;> simp [h]

/-- Membership in the visited set is preserved by merging sub-results. -/
theorem mem_foldl_insertUnique (subs : List String) :
    ∀ acc, ∀ x ∈ acc, x ∈ subs.foldl insertUnique acc := by
  induction subs with
  | nil => intro acc x h; simpa using h
  | cons s ss ih => intro acc x h; exact ih _ _ (mem_insertUnique _ _ _ h)

/-- `insertUnique` keeps the visited set duplicate-free. -/
theorem nodup_insertUnique (l : List String) (y : String) (h : l.Nodup) :
    (insertUnique l y).Nodup := by
  unfold insertUnique
  split_ifs with hy
  · exact h
  · simp [List.nodup_append, h, hy]

/-- Merging sub-results keeps the visited set duplicate-free. -/
theorem nodup_foldl_insertUnique (subs : List String) :
    ∀ acc : List String, acc.Nodup → (subs.foldl insertUnique acc).Nodup := by
  induction subs with
  | nil => intro acc h; simpa using h
  | cons s ss ih => intro acc h; exact ih _ (nodup_insertUnique _ _ h)

/-- A successful run of the module-call loop from a duplicate-free visited
set yields a duplicate-free result. -/
theorem resolveLocalCalls_ok_nodup
    (recur : String → Option (Except (List Diag) (List String))) (path : String) :
    ∀ (calls acc srcs : List String), acc.Nodup →
      resolveLocalCalls recur path calls acc = some (Except.ok srcs) → srcs.Nodup := by
  intro calls
  induction calls with
  | nil =>
    intro acc srcs ha h
    simp only [resolveLocalCalls, Option.some.injEq, Except.ok.injEq] at h
    rwa [← h]
  | cons mc rest ih =>
    intro acc srcs ha h
    simp only [resolveLocalCalls] at h
    by_cases hl : isLocalTerraformModuleSource mc = true
    · rw [if_pos hl] at h
      by_cases hmem : goJoin (goJoin path mc) ("*.tf*") ∈ acc
      · rw [if_pos hmem] at h
        exact ih acc srcs ha h
      · rw [if_neg hmem] at h
        cases hr : recur (goJoin path mc) with
        | none => rw [hr] at h; exact absurd h (by simp)
        | some r =>
          cases r with
          | error e => rw [hr] at h; exact absurd h (by simp)
          | ok subs =>
            rw [hr] at h
            refine ih _ srcs ?_ h
            refine nodup_foldl_insertUnique _ _ ?_
            simp [List.nodup_append, ha, hmem]
    · rw [if_neg hl] at h
      exact ih acc srcs ha h

/-- When every module call is non-local, the module-call loop returns the
visited set unchanged. -/
theorem resolveLocalCalls_all_nonlocal
    (recur : String → Option (Except (List Diag) (List String))) (path : String) :
    ∀ calls acc, (∀ c ∈ calls, isLocalTerraformModuleSource c = false) →
      resolveLocalCalls recur path calls acc = some (Except.ok acc) := by
  intro calls
  induction calls with
  | nil => intro acc _; rfl
  | cons mc rest ih =>
    intro acc h
    have hmc := h mc (List.mem_cons_self _ _)
    simp only [resolveLocalCalls]
    rw [if_neg (by simp [hmc])]
    exact ih acc (fun c hc => h c (List.mem_cons_of_mem _ hc))

/-- C1: for every module path whose standard parse fails, the OpenTofu-aware
resolver returns a successful result containing at least the module's own
file-glob pattern `*.tf*` exactly when some diagnostic summary contains one
of the known provider-reference texts (a substring match on the summary);
when no diagnostic summary matches, it returns an error. -/
theorem c1_theorem (fs : String → LoadedModule) (n : Nat) (path : String)
    (herr : hasErrors (fs path).Diags = true) :
    ((fs path).Diags.any isProviderRefDiag = true →
      ∃ srcs, parseTerraformLocalModuleSourceOpenTofu fs (n + 1) path =
          some (Except.ok srcs) ∧ ("*.tf*") ∈ srcs) ∧
    ((fs path).Diags.any isProviderRefDiag = false →
      ∃ e, parseTerraformLocalModuleSourceOpenTofu fs (n + 1) path =
          some (Except.error e)) := by
  constructor
  · intro hp
    refine ⟨[("*.tf*")], ?_, by simp⟩
    simp [parseTerraformLocalModuleSourceOpenTofu, herr, hp,
          parseTerraformFilesWithOpenTofuSupport]
  · intro hp
    refine ⟨(fs path).Diags, ?_⟩
    simp [parseTerraformLocalModuleSourceOpenTofu, herr, hp]

/-- C1 witness: a module whose parse fails with the provider-reference
diagnostic resolves to a success containing `*.tf*`; a module whose parse
fails with an unrelated syntax error resolves to an error. -/
theorem c1_witness :
    (∃ srcs, parseTerraformLocalModuleSourceOpenTofu providerErrFS 1 ("M") =
        some (Except.ok srcs) ∧ ("*.tf*") ∈ srcs) ∧
    (∃ e, parseTerraformLocalModuleSourceOpenTofu syntaxErrFS 1 ("M") =
        some (Except.error e)) :=
  ⟨(c1_theorem providerErrFS 0 ("M") (by decide)).1 (by decide),
   (c1_theorem syntaxErrFS 0 ("M") (by decide)).2 (by decide)⟩

/-- C4 counterexample: on the self-referencing module `A` (its single
module call is the local source `./`, which joins back to `A` itself), the
resolver returns at NO recursion depth: the visited set is local to each
invocation, so a cyclic local reference recurses forever instead of being
deduplicated. -/
theorem c4_counterexample :
    ¬ ∃ n, (parseTerraformLocalModuleSourceOpenTofu cyclicFS n ("A")).isSome = true := by
  have h : ∀ n, parseTerraformLocalModuleSourceOpenTofu cyclicFS n ("A") = none := by
    intro n
    induction n with
    | zero => rfl
    | succ k ih =>
      have hj : goJoin ("A") ("./") = ("A") := by decide
      have hl : isLocalTerraformModuleSource ("./") = true := by decide
      simp [parseTerraformLocalModuleSourceOpenTofu, resolveLocalCalls, cyclicFS,
            hasErrors, hj, hl, ih]
  rintro ⟨n, hn⟩
  rw [h n] at hn
  simp at hn

/-- C4 (amended): within one invocation a repeated local module reference
is deduplicated rather than reported as an error — processing a duplicated
module call is a no-op — and every successful resolution result is
duplicate-free; a module whose calls are all non-local resolves
immediately; but the visited set is local to each invocation, so it does
NOT prevent infinite recursion on cyclic local references (resolution of a
self-referencing module diverges, see the counterexample). -/
theorem c4_theorem :
    (∀ recur path mc rest acc,
      resolveLocalCalls recur path (mc :: mc :: rest) acc =
        resolveLocalCalls recur path (mc :: rest) acc) ∧
    (∀ (fs : String → LoadedModule) (n : Nat) (path : String) (srcs : List String),
      parseTerraformLocalModuleSourceOpenTofu fs n path = some (Except.ok srcs) →
      srcs.Nodup) ∧
    (∀ (fs : String → LoadedModule) (path : String),
      hasErrors (fs path).Diags = false →
      (∀ c ∈ (fs path).ModuleCalls, isLocalTerraformModuleSource c = false) →
      parseTerraformLocalModuleSourceOpenTofu fs 1 path = some (Except.ok [])) := by
  refine ⟨?_, ?_, ?_⟩
  · intro recur path mc rest acc
    by_cases hl : isLocalTerraformModuleSource mc = true
    · by_cases hmem : goJoin (goJoin path mc) ("*.tf*") ∈ acc
      · simp [resolveLocalCalls, hl, hmem]
      · cases hr : recur (goJoin path mc) with
        | none => simp [resolveLocalCalls, hl, hmem, hr]
        | some r =>
          cases r with
          | error e => simp [resolveLocalCalls, hl, hmem, hr]
          | ok subs =>
            have hg : goJoin (goJoin path mc) ("*.tf*") ∈
                subs.foldl insertUnique (acc ++ [goJoin (goJoin path mc) ("*.tf*")]) :=
              mem_foldl_insertUnique subs _ _ (by simp)
            simp [resolveLocalCalls, hl, hmem, hr, hg]
    · simp [resolveLocalCalls, hl]
  · intro fs n path srcs h
    cases n with
    | zero => exact absurd h (by simp [parseTerraformLocalModuleSourceOpenTofu])
    | succ k =>
      simp only [parseTerraformLocalModuleSourceOpenTofu] at h
      by_cases he : hasErrors (fs path).Diags = true
      · rw [if_pos he] at h
        by_cases hp : (fs path).Diags.any isProviderRefDiag = true
        · rw [if_pos hp] at h
          simp only [Option.some.injEq, Except.ok.injEq] at h
          rw [← h]
          simp [parseTerraformFilesWithOpenTofuSupport]
        · rw [if_neg hp] at h
          exact absurd h (by simp)
      · rw [if_neg he] at h
        exact resolveLocalCalls_ok_nodup _ _ _ _ _ List.nodup_nil h
  · intro fs path he hc
    simp only [parseTerraformLocalModuleSourceOpenTofu]
    rw [if_neg (by simp [he])]
    exact resolveLocalCalls_all_nonlocal _ _ _ _ hc

/-- C4 witness: a duplicated local call is a no-op for the loop; the
successful result on the remote-only module is duplicate-free; and the
remote-only module resolves immediately. -/
theorem c4_witness :
    resolveLocalCalls (fun _ => none) ("a") [("./m"), ("./m")] [] =
      resolveLocalCalls (fun _ => none) ("a") [("./m")] [] ∧
    ([] : List String).Nodup ∧
    parseTerraformLocalModuleSourceOpenTofu remoteOnlyFS 1 ("M") = some (Except.ok []) :=
  ⟨c4_theorem.1 (fun _ => none) ("a") ("./m") [] [],
   c4_theorem.2.1 remoteOnlyFS 1 ("M") [] (by decide),
   c4_theorem.2.2 remoteOnlyFS ("M") (by decide) (by decide)⟩

/-- C5 counterexample: module `M` parses successfully and references only a
remote (non-local) module source; `parseTerraformLocalModuleSource` returns
the empty pattern set — not the claimed singleton containing the module's
own file glob `M/*.tf*`. -/
theorem c5_counterexample :
    parseTerraformLocalModuleSource remoteOnlyFS 1 ("M") = some (Except.ok []) ∧
    ownGlobOnly ("M") = [("M/*.tf*")] ∧
    (([] : List String) ≠ [("M/*.tf*")]) := by
  refine ⟨by decide, by decide, by decide⟩

/-- C5 (amended): for every module whose configuration parses successfully
and contains no module call with a local source prefix, the resolver
returns the EMPTY watch-pattern set: non-local (remote or registry) sources
contribute no patterns, and the module's own file glob is not part of this
function's result (callers add the module's own patterns separately). -/
theorem c5_theorem (fs : String → LoadedModule) (n : Nat) (path : String)
    (herr : hasErrors (fs path).Diags = false)
    (hcalls : ∀ c ∈ (fs path).ModuleCalls, isLocalTerraformModuleSource c = false) :
    parseTerraformLocalModuleSource fs (n + 1) path = some (Except.ok []) := by
  have hot : parseTerraformLocalModuleSourceOpenTofu fs (n + 1) path =
      some (Except.ok []) := by
    simp only [parseTerraformLocalModuleSourceOpenTofu]
    rw [if_neg (by simp [herr])]
    exact resolveLocalCalls_all_nonlocal _ _ _ _ hcalls
  simp [parseTerraformLocalModuleSource, hot]

/-- C5 witness: the amended statement at the remote-only module. -/
theorem c5_witness :
    parseTerraformLocalModuleSource remoteOnlyFS 1 ("M") = some (Except.ok []) :=
  c5_theorem remoteOnlyFS 0 ("M") (by decide) (by decide)

/-- C8: when a marker file declares several stack blocks, the first in
declaration order is selected (the rest are only a non-fatal warning); and
a file that declares at least one unit but no stack block yields a stack
named after the directory containing the file. -/
theorem c8_theorem :
    (∀ (path : String) (parsed : ParsedStackHcl) (b : StackBlock) (rest : List StackBlock),
      parsed.Stacks = b :: rest → (ParseStackHclFile path parsed).stackBlock = some b) ∧
    (∀ (fx : String → Bool) (gitRoot : String) (d : StackHclDefinition),
      d.stackBlock = none → d.Units ≠ [] →
      (ConvertStackHclToStacks fx [d] gitRoot).map Stack.Name =
        [goBase (goDir d.FilePath)]) := by
  constructor
  · intro path parsed b rest h
    simp [ParseStackHclFile, h]
  · intro fx gitRoot d hsb hu
    simp [ConvertStackHclToStacks, hsb, hu]

/-- C8 witness: the two-block file selects the block named `prod`; the
block-less definition under `envs/prod/` is named after that directory. -/
theorem c8_witness :
    (ParseStackHclFile ("f.hcl") twoBlocksParsed).stackBlock =
      some ({ Name := "prod" } : StackBlock) ∧
    (ConvertStackHclToStacks (fun _ => false) [noBlockDef] (".")).map Stack.Name =
      [goBase (goDir noBlockDef.FilePath)] :=
  ⟨c8_theorem.1 ("f.hcl") twoBlocksParsed _ _ rfl,
   c8_theorem.2 (fun _ => false) (".") noBlockDef rfl (by decide)⟩

/-- C9: the generated project copies workflow, workspace, terraform
version, apply requirements, the autoplan flag, the execution-order group
and depends_on from the stack's resolved configuration; each optional field
is absent exactly when unset — apply requirements when the list is empty,
the execution-order group when the order is not positive, depends_on when
there are no dependencies — and carries the copied value otherwise. -/
theorem c9_theorem (stackToModules : List (String × List String)) (stack : Stack) :
    (GenerateStackProject stackToModules stack).Workflow = stack.AtlantisConfig.Workflow ∧
    (GenerateStackProject stackToModules stack).Workspace = stack.AtlantisConfig.Workspace ∧
    (GenerateStackProject stackToModules stack).TerraformVersion =
      stack.AtlantisConfig.TerraformVersion ∧
    (GenerateStackProject stackToModules stack).Autoplan.Enabled =
      stack.AtlantisConfig.AutoPlan ∧
    ((GenerateStackProject stackToModules stack).ApplyRequirements = none ↔
      stack.AtlantisConfig.ApplyRequirements = []) ∧
    (stack.AtlantisConfig.ApplyRequirements ≠ [] →
      (GenerateStackProject stackToModules stack).ApplyRequirements =
        some stack.AtlantisConfig.ApplyRequirements) ∧
    ((GenerateStackProject stackToModules stack).ExecutionOrderGroup = none ↔
      ¬stack.ExecutionOrder > 0) ∧
    (stack.ExecutionOrder > 0 →
      (GenerateStackProject stackToModules stack).ExecutionOrderGroup =
        some stack.ExecutionOrder) ∧
    ((GenerateStackProject stackToModules stack).DependsOn = none ↔
      stack.Dependencies = []) ∧
    (stack.Dependencies ≠ [] →
      (GenerateStackProject stackToModules stack).DependsOn = some stack.Dependencies) := by
  refine ⟨rfl, rfl, rfl, rfl, ?_, ?_, ?_, ?_, ?_, ?_⟩
  · by_cases h : stack.AtlantisConfig.ApplyRequirements = [] <;>
      simp [GenerateStackProject, h]
  · intro h
    simp [GenerateStackProject, h]
  · by_cases h : stack.ExecutionOrder > 0 <;> simp [GenerateStackProject, h]
  · intro h
    simp [GenerateStackProject, h]
  · by_cases h : stack.Dependencies = [] <;> simp [GenerateStackProject, h]
  · intro h
    simp [GenerateStackProject, h]

/-- C9 witness: on a stack with non-empty apply requirements, a positive
execution order and a dependency, all three optional fields are present
with the copied values. -/
theorem c9_witness :
    (GenerateStackProject [(("shared"), ["s/mod"])] demoStack).ApplyRequirements =
      some demoStack.AtlantisConfig.ApplyRequirements ∧
    (GenerateStackProject [(("shared"), ["s/mod"])] demoStack).ExecutionOrderGroup =
      some demoStack.ExecutionOrder ∧
    (GenerateStackProject [(("shared"), ["s/mod"])] demoStack).DependsOn =
      some demoStack.Dependencies :=
  ⟨(c9_theorem [(("shared"), ["s/mod"])] demoStack).2.2.2.2.2.1 (by decide),
   (c9_theorem [(("shared"), ["s/mod"])] demoStack).2.2.2.2.2.2.2.1 (by decide),
   (c9_theorem [(("shared"), ["s/mod"])] demoStack).2.2.2.2.2.2.2.2.2 (by decide)⟩

end TAC
